import Mathlib

/-!
Verification of the Spybar repository (a terminal progress overlay for a
supervised file-reading process). We shallowly embed the relevant parts of
`src/spybar/progress.py` and `src/spybar/utils.py`:

* the path-shortening helper `shorten_file_path` (Python strings are modelled
  as `List Char`, Python slicing / `str.split` / `os.path.join` /
  `os.path.splitext` are reproduced faithfully);
* the file-descriptor sampler `SpyProcess.list_files` with its path-keyed
  size cache (Python dicts are modelled as association lists in insertion
  order);
* the progress model `Progress.update` / `Progress._render` (tqdm handles are
  modelled as records carrying an allocation identifier standing for Python
  object identity);
* the bottom-box renderer `BottomBox.update` / `_adjust_for_height` /
  `cleanup` (terminal writes are modelled as a list of control tokens);
* the display loop `SpyProcess.print_progress` (modelled as the trace of
  actions produced for a given FIFO queue content).
-/

/-- A Python `str`, modelled as its list of characters. -/
abbrev PyStr := List Char

/-- Python slicing `s[0:k]` for an arbitrary (possibly negative) integer `k`:
a negative index counts from the end, and the bound is clamped to the string. -/
def pyTake (s : PyStr) (k : Int) : PyStr :=
  let stop : Int := if k < 0 then (s.length : Int) + k else k
  s.take stop.toNat

/-- Python `s.rstrip("/")`: remove all trailing `'/'` characters. -/
def rstripSlash (s : PyStr) : PyStr :=
  (s.reverse.dropWhile (fun c => c = '/')).reverse

/-- Python `s.split(sep)` for a single-character separator: always returns a
non-empty list, `"".split(sep) == [""]`, and adjacent separators produce empty
pieces. -/
def pySplit (sep : Char) : PyStr → List PyStr
  | [] => [[]]
  | c :: rest =>
    match pySplit sep rest with
    | [] => [[]]
    | h :: t => if c = sep then [] :: h :: t else (c :: h) :: t

/-- One step of `posixpath.join`: `if b.startswith('/'): path = b; elif not
path or path.endswith('/'): path += b; else: path += '/' + b`. -/
def pyJoinFold (acc b : PyStr) : PyStr :=
  if b.head? = some '/' then b
  else if acc = [] ∨ acc.getLast? = some '/' then acc ++ b
  else acc ++ '/' :: b

/-- Python `posixpath.join(p₀, p₁, ..., pₙ)` over a non-empty list of components. -/
def pyJoin : List PyStr → PyStr
  | [] => []
  | p :: rest => rest.foldl pyJoinFold p

/-- Python `s.rfind(c)`: index of the last occurrence of `c`, `-1` if absent. -/
def pyRfind (c : Char) (s : PyStr) : Int :=
  match s.reverse.findIdx? (fun x => x = c) with
  | none => -1
  | some i => (s.length : Int) - 1 - (i : Int)

/-- Python `posixpath.splitext`: split off the extension at the last dot of the last
component, provided some non-dot character precedes that dot within the
component (so `".bashrc"` has no extension). -/
def splitext (p : PyStr) : PyStr × PyStr :=
  let sepIndex := pyRfind '/' p
  let dotIndex := pyRfind '.' p
  if sepIndex < dotIndex then
    let mid := (p.drop (sepIndex + 1).toNat).take (dotIndex - (sepIndex + 1)).toNat
    if mid.any (fun c => c ≠ '.') then
      (p.take dotIndex.toNat, p.drop dotIndex.toNat)
    else (p, [])
  else (p, [])

/-- The final abbreviation stage of `shorten_file_path` (progress.py lines
69-75): split off the extension; if fewer than 5 columns remain for the stem,
truncate the whole string and append `"..."`; otherwise truncate the stem and
insert `".."` before the extension. -/
def finishShorten (maxLength : Int) (fp : PyStr) : PyStr :=
  let ne := splitext fp
  let maxNameLength := maxLength - (ne.2.length : Int)
  if maxNameLength < 5 then
    pyTake fp (maxLength - 3) ++ ['.', '.', '.']
  else
    pyTake ne.1 (maxNameLength - 2) ++ '.' :: '.' :: ne.2

/-- The parent-stripping loop of `shorten_file_path` (progress.py lines
63-67): for `i in range(1, len(parts) - 1)` rebind `file_path` to
`os.path.join(*parts[i:])`, returning as soon as it fits; on fall-through the
last rebinding feeds the abbreviation stage. -/
def shortenLoop (maxLength : Int) (parts : List PyStr) : List Nat → PyStr → PyStr
  | [], fp => finishShorten maxLength fp
  | i :: is, _ =>
    let fp' := pyJoin (parts.drop i)
    if (fp'.length : Int) ≤ maxLength then fp'
    else shortenLoop maxLength parts is fp'

/-- The `$HOME` abbreviation stage of `shorten_file_path` (progress.py lines
50-56): if `HOME` is set and non-empty, strip its trailing slashes and, when
the path starts with the result, replace that prefix by `'~'`. -/
def applyHome (home : Option PyStr) (filePath : PyStr) : PyStr :=
  match home with
  | none => filePath
  | some h =>
    if h = [] then filePath
    else
      let h' := rstripSlash h
      if h'.isPrefixOf filePath then '~' :: filePath.drop h'.length
      else filePath

/-- The `shorten_file_path(max_length, file_path)` helper from progress.py, with the
`HOME` environment variable made an explicit parameter. -/
def shorten_file_path (home : Option PyStr) (maxLength : Int) (filePath : PyStr) : PyStr :=
  let fp0 := applyHome home filePath
  if (fp0.length : Int) ≤ maxLength then fp0
  else
    let parts := pySplit '/' fp0
    shortenLoop maxLength parts (List.range' 1 (parts.length - 2)) fp0

/-! ## The file-descriptor sampler (`SpyProcess.list_files`, utils.py) -/

/-- The psutil exceptions that `list_files` catches around descriptor
enumeration (utils.py line 105). -/
inductive PsError where
  | accessDenied
  | noSuchProcess
  deriving DecidableEq

/-- One entry of `proc.open_files()`: a psutil `popenfile` with its path,
open mode and current read offset. -/
structure OpenFileEntry where
  path : String
  mode : String
  position : Int
  deriving DecidableEq

/-- The `FileInfo` named tuple of utils.py. -/
structure FileInfo where
  path : String
  size : Int
  position : Int
  deriving DecidableEq

/-- The sampler's `files_cache` dict, modelled as an association list in
insertion order (Python dicts preserve insertion order). -/
abbrev SizeCache := List (String × Int)

/-- Lookup in an association list (first entry with a matching key, matching
Python dict lookup on a list kept key-unique). -/
def alookup {α : Type} : List (String × α) → String → Option α
  | [], _ => none
  | kv :: rest, p => if kv.1 = p then some kv.2 else alookup rest p

/-- The paths of the read-mode (`mode == "r"`) entries of a descriptor list:
this is the `files_in_use` set accumulated by `list_files`. -/
def readPaths (fs : List OpenFileEntry) : List String :=
  (fs.filter (fun f => f.mode == "r")).map (fun f => f.path)

/-- The enumeration loop of `list_files` (utils.py lines 91-104): skip
non-read descriptors; stat a path (via `getsize`) only when absent from the
cache; emit a `FileInfo` with the cached size and the live offset. Returns
the emitted list together with the grown cache (before the purge). -/
def processOpenFiles (getsize : String → Int) :
    List OpenFileEntry → SizeCache → List FileInfo × SizeCache
  | [], cache => ([], cache)
  | f :: fs, cache =>
    if f.mode = "r" then
      let cache1 :=
        match alookup cache f.path with
        | none => cache ++ [(f.path, getsize f.path)]
        | some _ => cache
      let size := (alookup cache1 f.path).getD 0
      let r := processOpenFiles getsize fs cache1
      (⟨f.path, size, f.position⟩ :: r.1, r.2)
    else
      processOpenFiles getsize fs cache

/-- Model of `SpyProcess.list_files` (utils.py lines 82-111). The descriptor
enumeration either fails with a psutil error — caught, leaving the output
empty and the purge (run with an empty `files_in_use`) emptying the cache —
or yields a list that is processed in full, after which every cache key not
among that list's read-mode paths is purged. Returns the `FileInfo` sequence
and the updated cache. -/
def list_files (getsize : String → Int) (cache : SizeCache)
    (sample : Except PsError (List OpenFileEntry)) : List FileInfo × SizeCache :=
  match sample with
  | Except.error _ => ([], [])
  | Except.ok fs =>
    let r := processOpenFiles getsize fs cache
    (r.1, r.2.filter (fun kv => decide (kv.1 ∈ readPaths fs)))

/-! ## The progress model (`Progress.update` / `Progress._render`, progress.py) -/

/-- A tqdm progress-bar handle as the model observes it: `id` stands for
Python object identity (allocation order), `total`/`n`/`desc`/`ncols` are the
attributes the code constructs or mutates. -/
structure Tqdm where
  id : Nat
  total : Int
  n : Int
  desc : PyStr
  ncols : Int
  deriving DecidableEq

/-- The `FileProgress` named tuple of progress.py: a `FileInfo` plus its tqdm
handle. -/
structure FileProgressE where
  info : FileInfo
  handle : Tqdm
  deriving DecidableEq

/-- The state of a `Progress` instance: its `files` dict (association list in
insertion order) and the next allocation identifier for tqdm handles. -/
structure ProgressState where
  files : List (String × FileProgressE)
  nextId : Nat
  deriving DecidableEq

/-- The tqdm constructed for a newly seen path (progress.py lines 360-371):
`desc = file.path`, `total = file.size`, position counter starting at 0. -/
def mkTqdm (nid : Nat) (f : FileInfo) : Tqdm :=
  { id := nid, total := f.size, n := 0, desc := f.path.toList, ncols := 0 }

/-- One step of the diff loop of `Progress.update` (progress.py lines
356-373): a new path appends a fresh entry with a fresh handle; a known path
has its entry's `info` replaced in place (`_replace(info=file)` keeps the
tqdm handle). -/
def upsertFile (st : ProgressState) (f : FileInfo) : ProgressState :=
  match alookup st.files f.path with
  | some _ =>
    { st with
      files := st.files.map
        (fun kv => if kv.1 = f.path then (kv.1, { kv.2 with info := f }) else kv) }
  | none =>
    { files := st.files ++ [(f.path, ⟨f, mkTqdm st.nextId f⟩)],
      nextId := st.nextId + 1 }

/-- The `int(max(MIN_FILE_WIDTH, FILE_WIDTH * width))` computation of `_render` (progress.py
line 327) with `MIN_FILE_WIDTH = 10`, `FILE_WIDTH = 0.25`: for a non-negative
width this is `max 10 ⌊width / 4⌋`, and a negative product loses to 10. -/
def fileWidth (width : Int) : Int :=
  max 10 (if 0 ≤ width then ((width.toNat / 4 : Nat) : Int) else 0)

/-- The per-entry mutation of `Progress._render` (progress.py lines 329-332):
set `ncols` to the terminal width, advance the handle by
`info.position - handle.n`, and refresh the shortened description. -/
def advanceEntry (home : Option PyStr) (width : Int) (p : String) (e : FileProgressE) :
    FileProgressE :=
  { e with
    handle :=
      { e.handle with
        ncols := width
        n := e.handle.n + (e.info.position - e.handle.n)
        desc := shorten_file_path home (fileWidth width) p.toList } }

/-- Model of `Progress.update(files)` followed by the `BottomBox`-triggered
`Progress._render(width)` (progress.py lines 311-378): upsert every sampled
file, drop entries whose path is absent from the sample, then advance every
surviving handle and emit one rendered line per entry (`repr(tqdm)` is the
black-box formatter `reprT`). Returns the new state and the lines. -/
def progressUpdate (reprT : Tqdm → PyStr) (home : Option PyStr) (width : Int)
    (st : ProgressState) (input : List FileInfo) : ProgressState × List PyStr :=
  let st1 := input.foldl upsertFile st
  let kept := st1.files.filter (fun kv => input.any (fun f => f.path == kv.1))
  let files2 := kept.map (fun kv => (kv.1, advanceEntry home width kv.1 kv.2))
  ({ files := files2, nextId := st1.nextId }, files2.map (fun kv => reprT kv.2.handle))

/-! ## The bottom-box renderer (`BottomBox`, progress.py) -/

/-- The result of the `TIOCGWINSZ` ioctl (`TerminalSize` in progress.py). -/
structure TerminalSize where
  rows : Int
  cols : Int
  xPixel : Int
  yPixel : Int
  deriving DecidableEq

/-- The control tokens a `BottomBox` writes into its buffer: each constructor
is one of the `_write` helpers of progress.py. -/
inductive Ctrl where
  | newline
  | saveCursor
  | restoreCursor
  | setScrollRegion (rows : Int)
  | moveCursorToRow (row : Int)
  | cursorUp
  | clearRow
  | text (line : String)
  | flush
  deriving DecidableEq, BEq

/-- Model of `BottomBox._adjust_for_height(new_height)` (progress.py lines 243-255):
`for _ in range(last_height + 1, new_height)` write a newline, then as many
cursor-ups, then set `last_height = new_height`. Returns the emitted tokens
and the new `last_height`. -/
def adjust_for_height (lastHeight newHeight : Nat) : List Ctrl × Nat :=
  (List.replicate (newHeight - (lastHeight + 1)) Ctrl.newline ++
     List.replicate (newHeight - (lastHeight + 1)) Ctrl.cursorUp,
   newHeight)

/-- Model of `BottomBox.update()` (progress.py lines 257-277) after the renderer has
produced `lines` for the current geometry: adjust the reserved height, save
the cursor, set the scroll region to `rows - len(lines)`, draw each line at
its row after clearing it, restore the cursor, flush. Returns the emitted
tokens and the new `last_height`. -/
def boxUpdate (lastHeight : Nat) (size : TerminalSize) (lines : List String) :
    List Ctrl × Nat :=
  let adj := adjust_for_height lastHeight lines.length
  let start : Int := size.rows - (lines.length : Int) + 1
  (adj.1 ++
     [Ctrl.saveCursor, Ctrl.setScrollRegion (size.rows - (lines.length : Int))] ++
     (lines.enum.flatMap fun il =>
       [Ctrl.moveCursorToRow (start + (il.1 : Int)), Ctrl.clearRow, Ctrl.text il.2]) ++
     [Ctrl.restoreCursor, Ctrl.flush],
   adj.2)

/-- Model of `BottomBox.cleanup()` (progress.py lines 279-295): save the cursor, clear
each of the `last_height` reserved rows, restore the scroll region to the
full terminal height, restore the cursor, flush. -/
def boxCleanup (lastHeight : Nat) (size : TerminalSize) : List Ctrl :=
  let start : Int := size.rows - (lastHeight : Int) + 1
  [Ctrl.saveCursor] ++
    ((List.range lastHeight).flatMap fun i =>
      [Ctrl.moveCursorToRow (start + (i : Int)), Ctrl.clearRow]) ++
    [Ctrl.setScrollRegion size.rows, Ctrl.restoreCursor, Ctrl.flush]

/-- The scroll-region settings contained in a token stream, in order. -/
def scrollRegionsOf (l : List Ctrl) : List Int :=
  l.filterMap fun c =>
    match c with
    | Ctrl.setScrollRegion r => some r
    | _ => none

/-! ## The display loop (`SpyProcess.print_progress`, utils.py) -/

/-- The observable actions of one run of the display loop: a combined
sample + model update + redraw (`list_files` + `progress.update`), a pop from
the tick queue (`display_ticks.get()`, `done = true` for the watcher's final
`True`), and the renderer cleanup (`progress.close()`). -/
inductive DisplayAction where
  | sampleUpdate
  | pop (done : Bool)
  | cleanup
  deriving DecidableEq

/-- The trace of `SpyProcess.print_progress` (utils.py lines 113-126) when
the FIFO queue will deliver the given boolean events (`false` = `Tick`,
`true` = `Done`): each iteration performs a sample + update + redraw and then
pops; a popped `Done` ends the loop and runs the `finally` cleanup. An
exhausted event list models a loop left blocked on `get()`. -/
def printProgressTrace : List Bool → List DisplayAction
  | [] => [DisplayAction.sampleUpdate]
  | t :: ts =>
    DisplayAction.sampleUpdate :: DisplayAction.pop t ::
      (if t then [DisplayAction.cleanup] else printProgressTrace ts)

/-- The suffix of a trace strictly after the first `pop true` (the moment the
process-exit event is popped); `[]` if there is none. -/
def suffixAfterDone : List DisplayAction → List DisplayAction
  | [] => []
  | a :: rest =>
    if a = DisplayAction.pop true then rest else suffixAfterDone rest

/-! ## Helper lemmas: path shortening -/

/-- The slice `pyTake` with a non-negative bound returns at most that many characters. -/
theorem length_pyTake_le (s : PyStr) (k : Int) (hk : 0 ≤ k) :
    ((pyTake s k).length : Int) ≤ k := by
  simp only [pyTake]
  rw [if_neg (by omega)]
  have h1 : (s.take k.toNat).length ≤ k.toNat := by
    simp [List.length_take]
  omega

/-- The abbreviation stage keeps the result within `maxLength` as soon as
`maxLength ≥ 3` (so that the `file_path[0:max_length-3]` slice cannot wrap
around). -/
theorem length_finishShorten_le (maxLength : Int) (fp : PyStr) (h : 3 ≤ maxLength) :
    ((finishShorten maxLength fp).length : Int) ≤ maxLength := by
  simp only [finishShorten]
  split
  · have h1 := length_pyTake_le fp (maxLength - 3) (by omega)
    simp only [List.length_append, List.length_cons, List.length_nil]
    omega
  · rename_i hge
    have h1 := length_pyTake_le (splitext fp).1
      (maxLength - ((splitext fp).2.length : Int) - 2) (by omega)
    simp only [List.length_append, List.length_cons]
    omega

/-- The parent-stripping loop keeps the result within `maxLength` whenever
`maxLength ≥ 3`, for any fall-through value. -/
theorem length_shortenLoop_le (maxLength : Int) (h : 3 ≤ maxLength) (parts : List PyStr) :
    ∀ (is : List Nat) (fp : PyStr),
      ((shortenLoop maxLength parts is fp).length : Int) ≤ maxLength := by
  intro is
  induction is with
  | nil => intro fp; exact length_finishShorten_le maxLength fp h
  | cons i is ih =>
    intro fp
    simp only [shortenLoop]
    split
    · assumption
    · exact ih _

/-- Claim C3 (corrected; counterexample `C3_length_bound_cex`): the length
bound `len(result) ≤ max_length` does not hold for every `max_length` — for
`max_length < 3` the degenerate branch's slice `file_path[0:max_length-3]`
has a negative bound which Python interprets from the end of the string — but
it does hold for every `max_length ≥ 3`, every `HOME` value and every path,
including in the degenerate branch. -/
theorem C3_length_le_of_three_le (home : Option PyStr) (maxLength : Int) (filePath : PyStr)
    (h : 3 ≤ maxLength) :
    ((shorten_file_path home maxLength filePath).length : Int) ≤ maxLength := by
  simp only [shorten_file_path]
  split
  · assumption
  · exact length_shortenLoop_le maxLength h _ _ _

/-- Counterexample to claim C3 as stated: at `max_length = 2` and input
`"abcdefgh"` the degenerate branch computes `"abcdefgh"[0:-1] + "..."`,
i.e. `"abcdefg..."` of length 10 > 2. -/
theorem C3_length_bound_cex :
    ¬ ((shorten_file_path none 2 "abcdefgh".toList).length : Int) ≤ 2 := by decide

/-- Witness for `C3_length_le_of_three_le` at a concrete input. -/
theorem C3_length_le_of_three_le_witness :
    (3 : Int) ≤ 20 ∧
      ((shorten_file_path (some "/home/foo".toList) 20 "/foo/bar/baz.txt".toList).length :
        Int) ≤ 20 :=
  ⟨by decide, C3_length_le_of_three_le _ _ _ (by decide)⟩

/-- Claim C9 (confirmed): the five example evaluations of the test suite,
with `HOME=/home/foo`. -/
theorem C9_examples :
    shorten_file_path (some "/home/foo".toList) 20 "/home/foo/bar.txt".toList
        = "~/bar.txt".toList ∧
    shorten_file_path (some "/home/foo".toList) 7 "/foo/bar/baz".toList
        = "bar/baz".toList ∧
    shorten_file_path (some "/home/foo".toList) 10 "supermagalongname.txt".toList
        = "supe...txt".toList ∧
    shorten_file_path (some "/home/foo".toList) 15 "supermegalongname.txt".toList
        = "supermega...txt".toList ∧
    shorten_file_path (some "/home/foo".toList) 15 "damn.thisextension".toList
        = "damn.thisext...".toList := by
  refine ⟨?_, ?_, ?_, ?_, ?_⟩ <;> decide

/-- Claim C10 (confirmed): the home abbreviation is a plain string-prefix
test. For any non-empty `HOME` whose slash-stripped form is a character
prefix of the path, the leading characters are replaced by `'~'` — even
mid-component — whenever the substituted path fits in `max_length` (in
particular when the input already fits). -/
theorem C10_home_prefix_subst (h filePath : PyStr) (maxLength : Int)
    (hne : h ≠ [])
    (hpre : (rstripSlash h).isPrefixOf filePath = true)
    (hfit : ((1 + (filePath.length - (rstripSlash h).length) : Nat) : Int) ≤ maxLength) :
    shorten_file_path (some h) maxLength filePath
      = '~' :: filePath.drop (rstripSlash h).length := by
  have hfp0 : applyHome (some h) filePath
      = '~' :: filePath.drop (rstripSlash h).length := by
    simp only [applyHome]
    rw [if_neg hne, if_pos hpre]
  have hlen : ((('~' :: filePath.drop (rstripSlash h).length).length : Nat) : Int)
      ≤ maxLength := by
    simp only [List.length_cons, List.length_drop]
    omega
  simp only [shorten_file_path, hfp0]
  rw [if_pos hlen]

/-- Witness for `C10_home_prefix_subst`: with `HOME=/home/foo` the path
`/home/foobar/x` is displayed as `~bar/x`, the prefix replaced mid-component
although the input already fits within 20 columns. -/
theorem C10_home_prefix_subst_witness :
    shorten_file_path (some "/home/foo".toList) 20 "/home/foobar/x".toList
      = "~bar/x".toList := by
  have h := C10_home_prefix_subst "/home/foo".toList "/home/foobar/x".toList 20
    (by decide) (by decide) (by decide)
  rw [h]
  decide

/-! ## Helper lemmas: the size cache -/

/-- Lookup distributes over append: the left list wins. -/
theorem alookup_append {α : Type} (c l : List (String × α)) (p : String) :
    alookup (c ++ l) p =
      match alookup c p with
      | some v => some v
      | none => alookup l p := by
  induction c with
  | nil => simp [alookup]
  | cons kv rest ih =>
    by_cases hk : kv.1 = p
    · simp [alookup, hk]
    · simp [alookup, hk, ih]

/-- Appending a single binding adds exactly its key to the lookup domain. -/
theorem isSome_alookup_append_single {α : Type} (c : List (String × α)) (k : String)
    (v : α) (p : String) :
    (alookup (c ++ [(k, v)]) p).isSome = true ↔
      (alookup c p).isSome = true ∨ p = k := by
  rw [alookup_append]
  cases h : alookup c p with
  | none =>
    by_cases hkp : k = p
    · simp [alookup, hkp]
    · simp [alookup, hkp, Ne.symm hkp]
  | some w => simp

/-- Unfolding `readPaths` over a read-mode head descriptor. -/
theorem readPaths_cons_read (f : OpenFileEntry) (fs : List OpenFileEntry)
    (hm : f.mode = "r") :
    readPaths (f :: fs) = f.path :: readPaths fs := by
  simp [readPaths, List.filter_cons, hm]

/-- Unfolding `readPaths` over a non-read head descriptor. -/
theorem readPaths_cons_skip (f : OpenFileEntry) (fs : List OpenFileEntry)
    (hm : ¬ f.mode = "r") :
    readPaths (f :: fs) = readPaths fs := by
  simp [readPaths, List.filter_cons, hm]

/-- After the enumeration loop the cache's domain is the old domain plus the
read-mode paths of the processed descriptors. -/
theorem isSome_alookup_processOpenFiles (g : String → Int) (fs : List OpenFileEntry) :
    ∀ (c : SizeCache) (p : String),
      (alookup (processOpenFiles g fs c).2 p).isSome = true ↔
        (alookup c p).isSome = true ∨ p ∈ readPaths fs := by
  induction fs with
  | nil => intro c p; simp [processOpenFiles, readPaths]
  | cons f fs ih =>
    intro c p
    simp only [processOpenFiles]
    by_cases hm : f.mode = "r"
    · rw [if_pos hm]
      cases hc : alookup c f.path with
      | some v =>
        simp only [hc]
        rw [ih, readPaths_cons_read f fs hm]
        simp only [List.mem_cons]
        have hs : (alookup c p).isSome = true ∨ p ≠ f.path := by
          by_cases hp : p = f.path
          · left; rw [hp, hc]; rfl
          · right; exact hp
        tauto
      | none =>
        simp only [hc]
        rw [ih, isSome_alookup_append_single, readPaths_cons_read f fs hm]
        simp only [List.mem_cons]
        tauto
    · rw [if_neg hm, ih, readPaths_cons_skip f fs hm]

/-- Lookup through a filter that only inspects keys. -/
theorem alookup_filter_key {α : Type} (q : String → Bool) (c : List (String × α))
    (p : String) :
    alookup (c.filter (fun kv => q kv.1)) p = if q p then alookup c p else none := by
  induction c with
  | nil => simp [alookup]
  | cons kv rest ih =>
    rw [List.filter_cons]
    by_cases hk : kv.1 = p
    · cases hq : q kv.1
      · rw [if_neg (by decide), ih, ← hk, hq]
        rw [if_neg (by decide), if_neg (by decide)]
      · rw [if_pos (by decide), ← hk, hq]
        rw [if_pos (by decide)]
        simp [alookup]
    · cases hq : q kv.1
      · rw [if_neg (by decide), ih]
        by_cases hp : q p = true
        · rw [if_pos hp, if_pos hp]
          simp [alookup, hk]
        · rw [if_neg hp, if_neg hp]
      · rw [if_pos (by decide)]
        simp only [alookup, if_neg hk]
        rw [ih]

/-- The cache left by a successful `list_files` call answers lookups exactly
on that call's read-mode paths. -/
theorem listFiles_cache_keys (g : String → Int) (c : SizeCache)
    (fs : List OpenFileEntry) (p : String) :
    (alookup (list_files g c (Except.ok fs)).2 p).isSome = true ↔ p ∈ readPaths fs := by
  simp only [list_files]
  rw [alookup_filter_key (fun k => decide (k ∈ readPaths fs))]
  by_cases hp : p ∈ readPaths fs
  · rw [if_pos (decide_eq_true hp), isSome_alookup_processOpenFiles]
    tauto
  · rw [if_neg (by simp [hp])]
    simp [hp]

/-- If the cache holds no stale binding for `p` (absent, or already the fresh
size), every `FileInfo` the enumeration loop emits for `p` carries the fresh
size. -/
theorem processOpenFiles_fresh_size (g : String → Int) (fs : List OpenFileEntry) :
    ∀ (c : SizeCache) (p : String),
      (alookup c p = none ∨ alookup c p = some (g p)) →
      ∀ fi ∈ (processOpenFiles g fs c).1, fi.path = p → fi.size = g p := by
  induction fs with
  | nil => intro c p _ fi hfi; simp [processOpenFiles] at hfi
  | cons f fs ih =>
    intro c p hc fi hfi hpath
    simp only [processOpenFiles] at hfi
    by_cases hm : f.mode = "r"
    · rw [if_pos hm] at hfi
      cases hcf : alookup c f.path with
      | none =>
        simp only [hcf] at hfi
        have hins : alookup (c ++ [(f.path, g f.path)]) f.path = some (g f.path) := by
          rw [alookup_append, hcf]
          simp [alookup]
        rcases List.mem_cons.mp hfi with hfi | hfi
        · subst hfi
          have hp2 : f.path = p := hpath
          show (alookup (c ++ [(f.path, g f.path)]) f.path).getD 0 = g p
          rw [hins, Option.getD_some, hp2]
        · have hc' : alookup (c ++ [(f.path, g f.path)]) p = none ∨
              alookup (c ++ [(f.path, g f.path)]) p = some (g p) := by
            by_cases hp : p = f.path
            · right
              rw [hp]
              exact hins
            · have hfp : ¬ f.path = p := fun h0 => hp h0.symm
              rcases hc with hc | hc
              · left
                rw [alookup_append, hc]
                simp [alookup, hfp]
              · right
                rw [alookup_append, hc]
          exact ih _ p hc' fi hfi hpath
      | some v =>
        simp only [hcf] at hfi
        rcases List.mem_cons.mp hfi with hfi | hfi
        · subst hfi
          have hp2 : f.path = p := hpath
          show (some v).getD 0 = g p
          rw [Option.getD_some]
          rw [← hp2] at hc
          rcases hc with hc | hc
          · rw [hc] at hcf
            cases hcf
          · rw [hc] at hcf
            injection hcf with h0
            rw [hp2] at h0
            exact h0.symm
        · exact ih c p hc fi hfi hpath
    · rw [if_neg hm] at hfi
      exact ih c p hc fi hfi hpath

/-- Claim C4 (confirmed): (a) after every successful `list_files` call the
size cache contains exactly the read-mode paths of that call's descriptor
list — any absent path has been purged; (b) across two consecutive calls, a
path absent from the first call's read-mode list that appears in the second
call is re-stat'ed: every emitted `FileInfo` for it carries the second call's
fresh size, whatever the earlier cache held. -/
theorem C4_cache_exact_and_fresh_stat :
    (∀ (g : String → Int) (c : SizeCache) (fs : List OpenFileEntry) (p : String),
        (alookup (list_files g c (Except.ok fs)).2 p).isSome = true ↔
          p ∈ readPaths fs) ∧
    (∀ (g1 g2 : String → Int) (c : SizeCache) (fs1 fs2 : List OpenFileEntry)
        (p : String) (fi : FileInfo),
        p ∉ readPaths fs1 →
        fi ∈ (list_files g2 (list_files g1 c (Except.ok fs1)).2 (Except.ok fs2)).1 →
        fi.path = p → fi.size = g2 p) := by
  constructor
  · exact listFiles_cache_keys
  · intro g1 g2 c fs1 fs2 p fi hp hfi hpath
    have hnone : alookup (list_files g1 c (Except.ok fs1)).2 p = none := by
      have h1 := listFiles_cache_keys g1 c fs1 p
      rcases h : alookup (list_files g1 c (Except.ok fs1)).2 p with _ | v
      · rfl
      · rw [h] at h1
        exact absurd (h1.mp rfl) hp
    simp only [list_files] at hfi
    exact processOpenFiles_fresh_size g2 fs2 _ p (Or.inl hnone) fi hfi hpath

/-- Witness for `C4_cache_exact_and_fresh_stat`: a singleton read descriptor
populates the cache at its path, and a path purged by an empty sample is
re-stat'ed (fresh size 200, not the stale cached 5) when it reappears. -/
theorem C4_cache_exact_and_fresh_stat_witness :
    ((alookup (list_files (fun _ => (100 : Int)) []
        (Except.ok [⟨"a", "r", 0⟩])).2 "a").isSome = true) ∧
    (FileInfo.mk "a" 200 50).size = (fun _ => (200 : Int)) "a" :=
  ⟨(C4_cache_exact_and_fresh_stat.1 (fun _ => 100) [] [⟨"a", "r", 0⟩] "a").mpr
      (by decide),
   C4_cache_exact_and_fresh_stat.2 (fun _ => 100) (fun _ => 200) [("a", 5)] []
      [⟨"a", "r", 50⟩] "a" ⟨"a", 200, 50⟩ (by decide) (by decide) rfl⟩

/-- Claim C5 (confirmed): when descriptor enumeration fails with
`AccessDenied` or `NoSuchProcess` (psutil's process-not-found error),
`list_files` returns normally — in this embedding it is a total function
whose error branch is reached — with an empty `FileInfo` sequence. -/
theorem C5_error_yields_empty (getsize : String → Int) (cache : SizeCache) (e : PsError) :
    (list_files getsize cache (Except.error e)).1 = [] := rfl

/-! ## Helper lemmas: the progress model -/

/-- Taking `getLast?` with a default ignores the default once the list is non-empty:
consing shifts the default to the new head. -/
theorem getLastD_of_cons {α : Type} (l : List α) :
    ∀ (a d : α), ((a :: l).getLast?).getD d = (l.getLast?).getD a := by
  induction l with
  | nil => intro a d; rfl
  | cons b l ih =>
    intro a d
    rw [List.getLast?_cons_cons]
    rw [ih b d, ih b a]

/-- Lookup through a key-preserving value map. -/
theorem alookup_map_entry {α β : Type} (g : String → α → β) (l : List (String × α))
    (p : String) :
    alookup (l.map (fun kv => (kv.1, g kv.1 kv.2))) p
      = Option.map (g p) (alookup l p) := by
  induction l with
  | nil => rfl
  | cons kv rest ih =>
    by_cases hk : kv.1 = p
    · subst hk
      simp [alookup]
    · simp [alookup, hk, ih]

/-- Lookup through the in-place replacement map used by `upsertFile` on a
known path: only the lookup at that path changes. -/
theorem alookup_map_replace {α : Type} (q : String) (h : α → α)
    (l : List (String × α)) (p : String) :
    alookup (l.map (fun kv => if kv.1 = q then (kv.1, h kv.2) else kv)) p
      = if p = q then Option.map h (alookup l p) else alookup l p := by
  induction l with
  | nil => by_cases hpq : p = q <;> simp [alookup, hpq]
  | cons kv rest ih =>
    by_cases hkq : kv.1 = q
    · rw [List.map_cons, if_pos hkq]
      by_cases hkp : kv.1 = p
      · have hpq : p = q := by rw [← hkp, hkq]
        simp [alookup, hkp, hpq]
      · simp [alookup, hkp, ih]
    · rw [List.map_cons, if_neg hkq]
      by_cases hkp : kv.1 = p
      · have hpq : ¬ p = q := by rw [← hkp]; exact hkq
        simp [alookup, hkp, hpq]
      · simp [alookup, hkp, ih]

/-- Folding `upsertFile` over the sampled files: an already-tracked path
keeps its entry — same handle — with `info` replaced by the last sampled
`FileInfo` for that path (or kept if the path is not sampled). -/
theorem alookup_foldl_upsert (input : List FileInfo) :
    ∀ (st : ProgressState) (p : String) (e : FileProgressE),
      alookup st.files p = some e →
      alookup (input.foldl upsertFile st).files p
        = some { e with
            info := ((input.filter (fun g => g.path == p)).getLast?).getD e.info } := by
  induction input with
  | nil =>
    intro st p e h
    exact h
  | cons f rest ih =>
    intro st p e h
    rw [List.foldl_cons]
    by_cases hfp : f.path = p
    · have hl : alookup st.files f.path = some e := by rw [hfp]; exact h
      have h1 : alookup (upsertFile st f).files p = some { e with info := f } := by
        simp only [upsertFile, hl]
        rw [alookup_map_replace f.path (fun w : FileProgressE => { w with info := f })]
        rw [if_pos hfp.symm, h, Option.map_some']
      rw [ih _ p _ h1]
      rw [List.filter_cons, if_pos (by simp [hfp])]
      rw [getLastD_of_cons]
    · have h1 : alookup (upsertFile st f).files p = some e := by
        cases hl : alookup st.files f.path with
        | some v =>
          simp only [upsertFile, hl]
          rw [alookup_map_replace f.path (fun w : FileProgressE => { w with info := f })]
          rw [if_neg (fun hpq => hfp hpq.symm)]
          exact h
        | none =>
          simp only [upsertFile, hl]
          rw [alookup_append, h]
      rw [ih _ p _ h1]
      rw [List.filter_cons, if_neg (by simp [hfp])]

/-- Claim C6 (confirmed): a path already tracked by the model that appears
again in the next update keeps the identical rendering handle (same
allocation identity — the entry is mutated, never recreated), and the
handle's position counter is advanced in place by exactly
`new_position - handle.n` (so it ends at the sampled position). -/
theorem C6_handle_identity_and_delta (reprT : Tqdm → PyStr) (home : Option PyStr)
    (width : Int) (st : ProgressState) (input : List FileInfo) (p : String)
    (e : FileProgressE) (f : FileInfo)
    (hst : alookup st.files p = some e)
    (hf : (input.filter (fun g => g.path == p)).getLast? = some f) :
    ∃ e', alookup (progressUpdate reprT home width st input).1.files p = some e' ∧
      e'.handle.id = e.handle.id ∧
      e'.handle.n = e.handle.n + (f.position - e.handle.n) := by
  have h1 := alookup_foldl_upsert input st p e hst
  rw [hf, Option.getD_some] at h1
  have hmem : (input.any (fun f0 => f0.path == p)) = true := by
    have hne : input.filter (fun g => g.path == p) ≠ [] := by
      intro h0
      rw [h0] at hf
      simp at hf
    rw [List.any_eq_true]
    rcases List.exists_mem_of_ne_nil _ hne with ⟨x, hx⟩
    rcases List.mem_filter.mp hx with ⟨hx1, hx2⟩
    exact ⟨x, hx1, hx2⟩
  refine ⟨advanceEntry home width p { e with info := f }, ?_, rfl, rfl⟩
  simp only [progressUpdate]
  rw [alookup_map_entry (fun k v => advanceEntry home width k v)]
  rw [alookup_filter_key (fun k => input.any (fun f0 => f0.path == k))]
  rw [if_pos hmem, h1, Option.map_some']

/-- Witness for `C6_handle_identity_and_delta`: a tracked path `"a"` with
handle id 0 at position 10, updated to position 30, keeps handle id 0 and is
advanced by `30 - 10`. -/
theorem C6_handle_identity_and_delta_witness :
    ∃ e', alookup (progressUpdate (fun t => t.desc) none 80
        { files := [("a", ⟨⟨"a", 100, 10⟩, ⟨0, 100, 10, ['a'], 0⟩⟩)], nextId := 1 }
        [⟨"a", 100, 30⟩]).1.files "a" = some e' ∧
      e'.handle.id = 0 ∧
      e'.handle.n = 10 + (30 - 10) :=
  C6_handle_identity_and_delta (fun t => t.desc) none 80
    { files := [("a", ⟨⟨"a", 100, 10⟩, ⟨0, 100, 10, ['a'], 0⟩⟩)], nextId := 1 }
    [⟨"a", 100, 30⟩] "a" ⟨⟨"a", 100, 10⟩, ⟨0, 100, 10, ['a'], 0⟩⟩ ⟨"a", 100, 30⟩
    (by decide) (by decide)

/-! ## Helper lemmas: the bottom-box renderer and the display loop -/

/-- A `filterMap` over a replicated element that maps to `none` is empty. -/
theorem filterMap_replicate_none {α β : Type} (fn : α → Option β) (a : α)
    (hf : fn a = none) (n : Nat) :
    List.filterMap fn (List.replicate n a) = [] := by
  induction n with
  | zero => rfl
  | succ n ih => simp [List.replicate_succ, List.filterMap_cons, hf, ih]

/-- Every redraw emits exactly one scroll-region setting, namely
`rows - len(lines)`, regardless of the previously reserved height. -/
theorem scrollRegionsOf_boxUpdate (lastHeight : Nat) (size : TerminalSize)
    (lines : List String) :
    scrollRegionsOf (boxUpdate lastHeight size lines).1
      = [size.rows - (lines.length : Int)] := by
  simp only [boxUpdate, adjust_for_height, scrollRegionsOf]
  simp only [List.filterMap_append]
  rw [filterMap_replicate_none _ _ rfl, filterMap_replicate_none _ _ rfl]
  have hdraw : List.filterMap
      (fun c => match c with | Ctrl.setScrollRegion r => some r | _ => none)
      (lines.enum.flatMap fun il =>
        [Ctrl.moveCursorToRow ((size.rows - (lines.length : Int) + 1) + (il.1 : Int)),
         Ctrl.clearRow, Ctrl.text il.2]) = [] := by
    rw [List.filterMap_eq_nil_iff]
    intro a ha
    rcases List.mem_flatMap.mp ha with ⟨il, _, hmem⟩
    rcases List.mem_cons.mp hmem with h0 | h0
    · rw [h0]
    · rcases List.mem_cons.mp h0 with h1 | h1
      · rw [h1]
      · rcases List.mem_cons.mp h1 with h2 | h2
        · rw [h2]
        · cases h2
  rw [hdraw]
  rfl

/-- Claim C7 (confirmed): redrawing twice with the same line set and the same
geometry leaves `last_height` unchanged after the second call (both calls set
it to `len(lines)`) and sets the terminal scroll region to the same value
(`rows - len(lines)`) both times. -/
theorem C7_redraw_idempotent (lastHeight : Nat) (size : TerminalSize)
    (lines : List String) :
    (boxUpdate (boxUpdate lastHeight size lines).2 size lines).2
        = (boxUpdate lastHeight size lines).2 ∧
    scrollRegionsOf (boxUpdate (boxUpdate lastHeight size lines).2 size lines).1
        = scrollRegionsOf (boxUpdate lastHeight size lines).1 := by
  constructor
  · rfl
  · rw [scrollRegionsOf_boxUpdate, scrollRegionsOf_boxUpdate]

/-- Counterexample to claim C8 as stated: redrawing with an empty line
sequence after 3 rows were reserved does shrink the height to 0, but emits no
clear-row control at all — the previously reserved rows are not cleared (that
only happens in `cleanup`). -/
theorem C8_empty_lines_clear_cex :
    ¬ ((boxUpdate 3 ⟨24, 80, 0, 0⟩ []).2 = 0 ∧
       (boxUpdate 3 ⟨24, 80, 0, 0⟩ []).1.contains Ctrl.clearRow = true) := by decide

/-- Claim C8 (corrected; counterexample `C8_empty_lines_clear_cex`): calling
the redraw with an empty line sequence is safe (total, no failure branch),
shrinks the reserved height to zero and restores the scroll region to the
full terminal height — but it does not clear the previously reserved rows:
the emitted stream is exactly save-cursor, set-scroll-region(rows),
restore-cursor, flush, with no clear-row. -/
theorem C8_empty_update_shrinks (lastHeight : Nat) (size : TerminalSize) :
    boxUpdate lastHeight size []
      = ([Ctrl.saveCursor, Ctrl.setScrollRegion size.rows,
          Ctrl.restoreCursor, Ctrl.flush], 0) := by
  simp [boxUpdate, adjust_for_height]

/-- Counterexample to claim C2 as stated: growing from `last_height = 0` to 2
lines emits 1 newline and 1 cursor-up, not `2 - 0 = 2` of each (the Python
loop `range(last_height + 1, new_height)` has `new - last - 1` iterations). -/
theorem C2_newline_count_cex :
    ¬ (((boxUpdate 0 ⟨24, 80, 0, 0⟩ ["a", "b"]).1.count Ctrl.newline = 2) ∧
       ((boxUpdate 0 ⟨24, 80, 0, 0⟩ ["a", "b"]).1.count Ctrl.cursorUp = 2) ∧
       (boxUpdate 0 ⟨24, 80, 0, 0⟩ ["a", "b"]).2 = 2) := by decide

/-- Claim C2 (corrected; counterexample `C2_newline_count_cex`): when the new
line count exceeds the reserved height, the redraw first emits exactly
`new_height - last_height - 1` blank newlines, then that same number of
cursor-up moves, and records `new_height` as the reserved height. -/
theorem C2_adjust_emits_delta_minus_one (lastHeight : Nat) (size : TerminalSize)
    (lines : List String) (_hgrow : lastHeight < lines.length) :
    (boxUpdate lastHeight size lines).1
        = List.replicate (lines.length - lastHeight - 1) Ctrl.newline ++
          (List.replicate (lines.length - lastHeight - 1) Ctrl.cursorUp ++
            ([Ctrl.saveCursor, Ctrl.setScrollRegion (size.rows - (lines.length : Int))] ++
              (lines.enum.flatMap fun il =>
                [Ctrl.moveCursorToRow ((size.rows - (lines.length : Int) + 1) + (il.1 : Int)),
                 Ctrl.clearRow, Ctrl.text il.2]) ++
              [Ctrl.restoreCursor, Ctrl.flush])) ∧
      (boxUpdate lastHeight size lines).2 = lines.length := by
  constructor
  · simp only [boxUpdate, adjust_for_height, Nat.sub_sub, List.append_assoc]
  · rfl

/-- Witness for `C2_adjust_emits_delta_minus_one` at `last_height = 0`,
two lines, a 24×80 terminal. -/
theorem C2_adjust_emits_delta_minus_one_witness :
    (boxUpdate 0 ⟨24, 80, 0, 0⟩ ["a", "b"]).1
        = List.replicate 1 Ctrl.newline ++
          (List.replicate 1 Ctrl.cursorUp ++
            ([Ctrl.saveCursor, Ctrl.setScrollRegion 22] ++
              ((["a", "b"] : List String).enum.flatMap fun il =>
                [Ctrl.moveCursorToRow (23 + (il.1 : Int)),
                 Ctrl.clearRow, Ctrl.text il.2]) ++
              [Ctrl.restoreCursor, Ctrl.flush])) ∧
      (boxUpdate 0 ⟨24, 80, 0, 0⟩ ["a", "b"]).2 = 2 := by
  have h := C2_adjust_emits_delta_minus_one 0 ⟨24, 80, 0, 0⟩ ["a", "b"] (by decide)
  exact ⟨h.1.trans (by decide), h.2⟩

/-- Counterexample to claim C1 as stated: with the watcher's `Done` as the
first queued event, the trace after popping `Done` is `[cleanup]` — there is
no final sample + update + redraw between that pop and the cleanup. -/
theorem C1_no_redraw_after_done_pop_cex :
    ¬ (suffixAfterDone (printProgressTrace [true])
        = [DisplayAction.sampleUpdate, DisplayAction.cleanup]) := by decide

/-- Claim C1 (corrected; counterexample `C1_no_redraw_after_done_pop_cex`):
the loop performs its sample + update + redraw before each queue pop, so once
the process-exit event `Done` is popped, no further sample/update/redraw
occurs at all: renderer cleanup follows immediately and nothing — in
particular no `Tick`-driven redraw — happens after it. -/
theorem C1_cleanup_follows_done_immediately :
    ∀ (events : List Bool), true ∈ events →
      suffixAfterDone (printProgressTrace events) = [DisplayAction.cleanup] := by
  intro events
  induction events with
  | nil => intro h; cases h
  | cons t ts ih =>
    intro h
    cases t
    · have h' : true ∈ ts := by
        rcases List.mem_cons.mp h with h0 | h0
        · cases h0
        · exact h0
      simp [printProgressTrace, suffixAfterDone, ih h']
    · simp [printProgressTrace, suffixAfterDone]

/-- Witness for `C1_cleanup_follows_done_immediately` on the queue content
`[Tick, Done]`. -/
theorem C1_cleanup_follows_done_immediately_witness :
    true ∈ [false, true] ∧
      suffixAfterDone (printProgressTrace [false, true]) = [DisplayAction.cleanup] :=
  ⟨by decide, C1_cleanup_follows_done_immediately [false, true] (by decide)⟩
